import Mathlib

/-!
Shallow embedding of the fastapi-auto-news-uploader core
(`app/scheduler.py`, `app/tasks.py`, `app/mongodb_service.py`,
`app/services/telegram_bot.py`, `app/services/news_fetcher.py`)
and proofs of the specification claims about it.

Times are modelled as integers: a wall-clock instant truncated to whole
minutes is given by a day number together with hour and minute of day
(the Python code does `now.replace(second=0, microsecond=0)`), and
absolute instants (such as `last_run`) as seconds.  Strings are modelled
as `List Char`, matching Python's code-point semantics of `len` and
slicing.
-/

namespace NewsUploader

/-! ## Scheduler (`app/scheduler.py`) -/

/-- A task schedule: hour and minute of day (`task['schedule']`). -/
structure Schedule where
  hour : Nat
  minute : Nat
  deriving Repr, DecidableEq

/-- A scheduled task document (`scheduler_tasks` collection): name,
schedule and nullable `last_run` (absolute seconds). -/
structure STask where
  name : List Char
  schedule : Schedule
  last_run : Option Int
  deriving Repr, DecidableEq

/-- Absolute seconds of a (day, hour, minute) instant with zero seconds. -/
def toSeconds (day : Int) (hour minute : Nat) : Int :=
  ((day * 24 + hour) * 60 + minute) * 60

/-- `'cleanup' in task_name` — Python substring containment. -/
def containsCleanup (name : List Char) : Bool :=
  decide (List.IsInfix "cleanup".toList name)

/-- The `min_interval` computed in `should_run_task` (scheduler.py 38–42):
23 hours for names containing "cleanup", 50 minutes otherwise, in seconds. -/
def min_interval_of (name : List Char) : Int :=
  if containsCleanup name then 23 * 3600 else 50 * 60

/-- `MongoDBScheduler.should_run_task` (scheduler.py lines 24–47).
`now` is the current UTC time truncated to whole minutes, given as
(day, hour, minute); `task_time = now.replace(hour=.., minute=..)` keeps
the same day.  Due iff the absolute second difference is at most 120 and,
when `last_run` is set, the elapsed seconds since it reach the minimum
interval (23 h for names containing "cleanup", 50 min otherwise). -/
def should_run_task (task : STask) (day : Int) (hour minute : Nat) : Bool :=
  let nowS : Int := toSeconds day hour minute
  let taskS : Int := toSeconds day task.schedule.hour task.schedule.minute
  let time_diff : Nat := (nowS - taskS).natAbs
  if time_diff > 120 then
    false
  else
    match task.last_run with
    | none => true
    | some last_run_dt =>
      if nowS - last_run_dt < min_interval_of task.name then false else true

/-- `MongoDBService.setup_scheduled_tasks` (mongodb_service.py 204–232):
24 hourly news tasks at minute 0 plus one daily cleanup task at 03:00,
all seeded with `last_run = None`. -/
def setup_scheduled_tasks : List STask :=
  ((List.range 24).map fun h =>
    { name := "cricket_news_hour_".toList
        ++ (if h < 10 then "0" else "").toList ++ (Nat.repr h).toList
      schedule := { hour := h, minute := 0 }
      last_run := none })
  ++ [{ name := "cleanup_old_articles_daily".toList
        schedule := { hour := 3, minute := 0 }
        last_run := none }]

/-- Helper: with no `last_run`, due-ness is exactly the ±120 s tolerance
test on the minute-truncated clock. -/
theorem should_run_task_none (nm : List Char) (H M : Nat) (day : Int)
    (h m : Nat) :
    should_run_task ⟨nm, ⟨H, M⟩, none⟩ day h m = true ↔
      (toSeconds day h m - toSeconds day H M).natAbs ≤ 120 := by
  simp only [should_run_task]
  split
  · next hgt =>
    simp only [Bool.false_eq_true, false_iff, not_le]
    exact hgt
  · next hgt =>
    simp only [gt_iff_lt, not_lt] at hgt
    simpa using hgt

/-- The tolerance test in minutes: the second difference of two same-day
minute-truncated instants is 60·|Δminutes|, so ≤ 120 s iff ≤ 2 min. -/
theorem toSeconds_diff (day : Int) (h m H M : Nat) :
    (toSeconds day h m - toSeconds day H M).natAbs =
      60 * ((h * 60 + m : Int) - (H * 60 + M)).natAbs := by
  simp only [toSeconds]
  have : ((day * 24 + h) * 60 + m) * 60 - ((day * 24 + H) * 60 + M) * 60 =
      60 * ((h * 60 + m : Int) - (H * 60 + M)) := by ring
  rw [this, Int.natAbs_mul]
  rfl

/-- Helper: with `last_run = some l`, due-ness is exactly the ±120 s
tolerance test together with the minimum-spacing test. -/
theorem should_run_task_some (nm : List Char) (H M : Nat) (day l : Int)
    (h m : Nat) :
    should_run_task ⟨nm, ⟨H, M⟩, some l⟩ day h m = true ↔
      ((toSeconds day h m - toSeconds day H M).natAbs ≤ 120 ∧
        min_interval_of nm ≤ toSeconds day h m - l) := by
  simp only [should_run_task]
  split
  · next hgt =>
    simp only [Bool.false_eq_true, false_iff]
    rintro ⟨h1, _⟩
    omega
  · next hgt =>
    simp only [gt_iff_lt, not_lt] at hgt
    by_cases hlt : toSeconds day h m - l < min_interval_of nm
    · simp [hlt]
      all_goals omega
    · simp [hlt]
      all_goals omega

/-- C1: a task scheduled at hour `H`, minute 0, with no recorded last run
(so the minimum-spacing condition is vacuously met) passes the due-ness
check exactly when the minute-truncated current time is within 2 minutes
of H:00 on the same day. -/
theorem due_tolerance_window (nm : List Char) (H : Nat) (day : Int)
    (h m : Nat) (hH : H < 24) (hh : h < 24) (hm : m < 60) :
    should_run_task ⟨nm, ⟨H, 0⟩, none⟩ day h m = true ↔
      ((h * 60 + m : Int) - H * 60).natAbs ≤ 2 := by
  rw [should_run_task_none, toSeconds_diff]
  omega

/-- C1 witness: a task scheduled at 10:00 is due at 09:59 and at 10:02,
not due at 09:55 or at 10:05. -/
theorem due_tolerance_window_witness :
    should_run_task ⟨[], ⟨10, 0⟩, none⟩ 0 9 59 = true ∧
      should_run_task ⟨[], ⟨10, 0⟩, none⟩ 0 10 2 = true ∧
      should_run_task ⟨[], ⟨10, 0⟩, none⟩ 0 9 55 ≠ true ∧
      should_run_task ⟨[], ⟨10, 0⟩, none⟩ 0 10 5 ≠ true :=
  ⟨(due_tolerance_window [] 10 0 9 59 (by decide) (by decide)
      (by decide)).mpr (by decide),
   (due_tolerance_window [] 10 0 10 2 (by decide) (by decide)
      (by decide)).mpr (by decide),
   fun hc => absurd ((due_tolerance_window [] 10 0 9 55 (by decide)
      (by decide) (by decide)).mp hc) (by decide),
   fun hc => absurd ((due_tolerance_window [] 10 0 10 5 (by decide)
      (by decide) (by decide)).mp hc) (by decide)⟩

/-- C2: with a recorded last run, the due-ness check passes exactly when
the tolerance test passes and the elapsed seconds since last run reach
the minimum spacing — 50 minutes (3000 s) for names not containing
"cleanup", 23 hours (82800 s) for names containing it.  In particular it
fails whenever the elapsed time is below the spacing. -/
theorem due_min_spacing (nm : List Char) (H M : Nat) (day l : Int)
    (h m : Nat) (hH : H < 24) (hM : M < 60) (hh : h < 24) (hm : m < 60) :
    should_run_task ⟨nm, ⟨H, M⟩, some l⟩ day h m = true ↔
      (((h * 60 + m : Int) - (H * 60 + M)).natAbs ≤ 2 ∧
        ((containsCleanup nm = false →
            (3000 : Int) ≤ toSeconds day h m - l) ∧
          (containsCleanup nm = true →
            (82800 : Int) ≤ toSeconds day h m - l))) := by
  rw [should_run_task_some, toSeconds_diff]
  unfold min_interval_of
  by_cases hcl : containsCleanup nm
  · simp [hcl]
    omega
  · simp [hcl]
    omega

/-- C2 witness: a non-cleanup task whose last run was at 10:00 (36000 s
into day 0) is not due at 10:45 (45 min < 50 min elapsed, even within
tolerance of a 10:45 schedule) but is due at 10:51 (51 min > 50 min)
when 10:51 lies within the tolerance window of its schedule. -/
theorem due_min_spacing_witness :
    should_run_task ⟨['a'], ⟨10, 50⟩, some 36000⟩ 0 10 51 = true ∧
      should_run_task ⟨['a'], ⟨10, 45⟩, some 36000⟩ 0 10 45 ≠ true :=
  ⟨(due_min_spacing ['a'] 10 50 0 36000 10 51 (by decide) (by decide)
      (by decide) (by decide)).mpr (by decide),
   fun hc => absurd ((due_min_spacing ['a'] 10 45 0 36000 10 45
      (by decide) (by decide) (by decide) (by decide)).mp hc) (by decide)⟩

/-- C10: every task seeded by `setup_scheduled_tasks` has
`last_run = None`, and for any task with `last_run = None` the
minimum-spacing condition is skipped entirely: the task is due exactly
when the current time is within the ±2-minute tolerance window of its
schedule. -/
theorem first_fire_tolerance_only (nm : List Char) (H M : Nat)
    (day : Int) (h m : Nat) :
    (∀ t ∈ setup_scheduled_tasks, t.last_run = none) ∧
      (should_run_task ⟨nm, ⟨H, M⟩, none⟩ day h m = true ↔
        (toSeconds day h m - toSeconds day H M).natAbs ≤ 120) :=
  ⟨by decide, should_run_task_none nm H M day h m⟩

/-! ## Delivery client (`app/services/telegram_bot.py`) -/

/-- An article dict as produced by `NewsFetcher.fetch_cricket_news`.
String fields are lists of code points; optional fields model `None`.
Python truthiness treats both `None` and the empty string as absent. -/
structure Article where
  title : List Char
  link : List Char
  image_url : Option (List Char)
  description : Option (List Char)
  source : List Char
  deriving Repr, DecidableEq

/-- Python truthiness of an optional string: `None` and `""` are falsy. -/
def truthy : Option (List Char) → Bool
  | none => false
  | some s => !s.isEmpty

/-- Description truncation used by both senders:
`d[:cap] + "..." if len(d) > cap else d`. -/
def truncDesc (cap : Nat) (d : List Char) : List Char :=
  if d.length > cap then d.take cap ++ "...".toList else d

/-- The final link line appended to every message and caption:
`f"\n\n<a href=\"{link}\">Read full article</a>"`. -/
def linkLine (link : List Char) : List Char :=
  "\n\n<a href=\"".toList ++ link ++ "\">Read full article</a>".toList

/-- The text built by `TelegramBot.send_message` before the length cap
(telegram_bot.py 18–24). -/
def messageBody (a : Article) : List Char :=
  (("<b>".toList ++ a.title ++ "</b>".toList)
    ++ (match a.description with
        | some d => if !d.isEmpty then "\n\n".toList ++ truncDesc 300 d else []
        | none => []))
    ++ linkLine a.link

/-- The text actually sent by `TelegramBot.send_message`
(telegram_bot.py 26–27): capped at 4096, truncating to 4090 plus "...". -/
def sentMessage (a : Article) : List Char :=
  let message := messageBody a
  if message.length > 4096 then message.take 4090 ++ "...".toList else message

/-- The caption built by `TelegramBot.send_photo` before the length cap
(telegram_bot.py 55–61): description truncated at 200. -/
def captionBody (a : Article) : List Char :=
  (("<b>".toList ++ a.title ++ "</b>".toList)
    ++ (match a.description with
        | some d => if !d.isEmpty then "\n\n".toList ++ truncDesc 200 d else []
        | none => []))
    ++ linkLine a.link

/-- The caption actually sent by `TelegramBot.send_photo`
(telegram_bot.py 63–64): capped at 1024, truncating to 1020 plus "...". -/
def sentCaption (a : Article) : List Char :=
  let caption := captionBody a
  if caption.length > 1024 then caption.take 1020 ++ "...".toList else caption

/-- The text payload delivered for an article, following the framing in
`post_articles` (telegram_bot.py 99–102): photo-with-caption if
`article.get('image_url')` is truthy, else a text message. -/
def sentText (a : Article) : List Char :=
  if truthy a.image_url then sentCaption a else sentMessage a

/-- Observable delivery events of `post_articles`: an attempt at index
`i` with its outcome, and a `time.sleep(1)` pause. -/
inductive PostEvent where
  | attempt (i : Nat) (ok : Bool)
  | sleep
  deriving Repr, DecidableEq

/-- One iteration of the `post_articles` loop (telegram_bot.py 95–111):
on success increment the count and, when not at the last index, sleep
1 s; on failure log and continue. `n` is `len(articles)`. -/
def postStep (sendOk : Nat → Bool) (n : Nat) (acc : Nat × List PostEvent)
    (i : Nat) : Nat × List PostEvent :=
  if sendOk i then
    (acc.1 + 1,
      acc.2 ++ [.attempt i true] ++ if i < n - 1 then [.sleep] else [])
  else
    (acc.1, acc.2 ++ [.attempt i false])

/-- `TelegramBot.post_articles` (telegram_bot.py 89–114) as a pure
function of the per-index delivery outcome oracle `sendOk` and the
input length `n`: returns the posted count and the event trace. -/
def post_articles (sendOk : Nat → Bool) (n : Nat) : Nat × List PostEvent :=
  (List.range n).foldl (postStep sendOk n) (0, [])

/-- The block of events one loop iteration of `post_articles` emits for
index `i`: the attempt, followed by a 1 s sleep when the attempt
succeeded and `i` is not the last index. -/
def traceBlock (sendOk : Nat → Bool) (n i : Nat) : List PostEvent :=
  if sendOk i then
    .attempt i true :: (if i < n - 1 then [.sleep] else [])
  else
    [.attempt i false]

/-- Indices of delivery attempts appearing in a trace, in order. -/
def attemptIdxs (tr : List PostEvent) : List Nat :=
  tr.filterMap fun e =>
    match e with
    | .attempt i _ => some i
    | .sleep => none

theorem postStep_eq (sendOk : Nat → Bool) (n : Nat) (c : Nat)
    (tr : List PostEvent) (i : Nat) :
    postStep sendOk n (c, tr) i =
      ((if sendOk i then c + 1 else c), tr ++ traceBlock sendOk n i) := by
  simp only [postStep, traceBlock]
  by_cases h : sendOk i <;> simp [h]

theorem postFold (sendOk : Nat → Bool) (n : Nat) (l : List Nat) :
    ∀ (c : Nat) (tr : List PostEvent),
      l.foldl (postStep sendOk n) (c, tr) =
        (c + l.countP (fun i => sendOk i),
          tr ++ l.flatMap (traceBlock sendOk n)) := by
  induction l with
  | nil => intro c tr; simp
  | cons i l ih =>
    intro c tr
    rw [List.foldl_cons, postStep_eq, ih]
    by_cases h : sendOk i <;>
      simp [h, List.countP_cons, List.flatMap_cons] <;> omega

theorem attemptIdxs_append (t₁ t₂ : List PostEvent) :
    attemptIdxs (t₁ ++ t₂) = attemptIdxs t₁ ++ attemptIdxs t₂ := by
  simp [attemptIdxs]

theorem attemptIdxs_flatMap (sendOk : Nat → Bool) (n : Nat) :
    ∀ l : List Nat, attemptIdxs (l.flatMap (traceBlock sendOk n)) = l := by
  intro l
  induction l with
  | nil => simp [attemptIdxs]
  | cons i l ih =>
    rw [List.flatMap_cons, attemptIdxs_append, ih]
    by_cases h : sendOk i <;>
      by_cases h2 : i < n - 1 <;> simp [traceBlock, attemptIdxs, h, h2]

/-- C5: `post_articles` on an input of length `n` attempts each index
exactly once, in input order; its event trace is, for each index, the
attempt followed by a 1-unit sleep exactly when the delivery succeeded
and the index is not the last — so an individual failure is skipped
without aborting subsequent deliveries and the function always returns
(never raises); the returned count is the number of confirmed deliveries
and lies between 0 and `n`. -/
theorem deliverMany_spec (sendOk : Nat → Bool) (n : Nat) :
    (post_articles sendOk n).1 = (List.range n).countP (fun i => sendOk i) ∧
      (post_articles sendOk n).1 ≤ n ∧
      attemptIdxs (post_articles sendOk n).2 = List.range n ∧
      (post_articles sendOk n).2 =
        (List.range n).flatMap (traceBlock sendOk n) := by
  have h := postFold sendOk n (List.range n) 0 []
  simp only [post_articles, h, List.nil_append, Nat.zero_add]
  refine ⟨trivial, ?_, ?_, trivial⟩
  · calc (List.range n).countP (fun i => sendOk i)
        ≤ (List.range n).length := List.countP_le_length _
      _ = n := List.length_range n
  · exact attemptIdxs_flatMap sendOk n (List.range n)

/-- An article whose title is so long that the 4096-character cap
triggers and the truncation cuts off the trailing link line. -/
def exCut : Article :=
  { title := List.replicate 5000 'a'
    link := "https://x".toList
    image_url := none
    description := none
    source := "ESPN".toList }

/-- A small article on which no truncation occurs. -/
def exShort : Article :=
  { title := "T".toList
    link := "L".toList
    image_url := none
    description := none
    source := "ESPN".toList }

/-- C6 counterexample: for the concrete article `exCut` (5000-character
title, no image), the sent text is truncated to 4090 characters plus an
ellipsis and the link line is NOT a suffix of (not present at the end
of) the delivered message — refuting "the item's link is always present
as the final line". -/
theorem link_line_cut_counterexample :
    ¬ List.IsSuffix (linkLine exCut.link) (sentText exCut) := by
  have himg : ¬ (truthy exCut.image_url = true) := by decide
  have hmb : messageBody exCut =
      (("<b>".toList ++ (List.replicate 5000 'a' ++ "</b>".toList)) ++ [])
        ++ linkLine ("https://x".toList) := rfl
  have hA : ("<b>".toList).length = 3 := rfl
  have hB : ("</b>".toList).length = 4 := rfl
  have hL : (linkLine ("https://x".toList)).length = 43 := rfl
  have hlen : 4096 < (messageBody exCut).length := by
    rw [hmb]
    simp only [List.length_append, List.length_replicate, List.length_nil,
      hA, hB, hL]
    omega
  have hsent : sentText exCut =
      (messageBody exCut).take 4090 ++ "...".toList := by
    simp only [sentText, sentMessage]
    rw [if_neg himg, if_pos hlen]
  intro hsuf
  obtain ⟨u, hu⟩ := hsuf
  have h1 : (sentText exCut).getLast? = some '>' := by
    rw [← hu, List.getLast?_append_of_ne_nil u (by decide)]
    rfl
  have h2 : (sentText exCut).getLast? = some '.' := by
    rw [hsent, List.getLast?_append_of_ne_nil _ (by decide)]
    rfl
  rw [h1] at h2
  exact absurd h2 (by decide)

/-- C6 amended: image articles are delivered as a photo whose caption
never exceeds 1024 characters and text articles as a message never
exceeding 4096 characters, truncating to 1020 resp. 4090 characters plus
an ellipsis when over the cap; the link line is appended as the final
line *before* the cap is applied, so it is a suffix of the delivered
text whenever the uncapped text fits the cap (truncation may cut it
otherwise). -/
theorem delivery_framing_amended (a : Article) :
    (sentCaption a).length ≤ 1024 ∧
      (sentMessage a).length ≤ 4096 ∧
      ((messageBody a).length ≤ 4096 →
        List.IsSuffix (linkLine a.link) (sentMessage a)) ∧
      ((captionBody a).length ≤ 1024 →
        List.IsSuffix (linkLine a.link) (sentCaption a)) ∧
      (truthy a.image_url = true → sentText a = sentCaption a) ∧
      (truthy a.image_url = false → sentText a = sentMessage a) := by
  refine ⟨?_, ?_, ?_, ?_, ?_, ?_⟩
  · simp only [sentCaption]
    split
    · next hgt =>
      have h3 : ("...".toList).length = 3 := rfl
      simp only [List.length_append, List.length_take, h3]
      omega
    · next hgt => omega
  · simp only [sentMessage]
    split
    · next hgt =>
      have h3 : ("...".toList).length = 3 := rfl
      simp only [List.length_append, List.length_take, h3]
      omega
    · next hgt => omega
  · intro hle
    simp only [sentMessage]
    rw [if_neg (by omega)]
    exact List.suffix_append _ _
  · intro hle
    simp only [sentCaption]
    rw [if_neg (by omega)]
    exact List.suffix_append _ _
  · intro h; simp [sentText, h]
  · intro h; simp [sentText, h]

/-- C6 amended witness: on the concrete small article `exShort` no
truncation occurs, the sent message is within bounds and ends with the
link line. -/
theorem delivery_framing_amended_witness :
    (sentMessage exShort).length ≤ 4096 ∧
      List.IsSuffix (linkLine exShort.link) (sentMessage exShort) :=
  ⟨(delivery_framing_amended exShort).2.1,
   (delivery_framing_amended exShort).2.2.1 (by decide)⟩

/-! ## Dedup store (`app/mongodb_service.py`) -/

/-- A stored document of the `news_articles` collection
(`save_article`'s `article_doc`, mongodb_service.py 45–53). -/
structure StoredArticle where
  title : List Char
  link : List Char
  image_url : Option (List Char)
  description : Option (List Char)
  source : List Char
  posted_at : Int
  is_posted : Bool
  deriving Repr, DecidableEq

/-- The Mongo filter `{'title': t, 'source': s}`. -/
def keyMatches (t s : List Char) (r : StoredArticle) : Bool :=
  decide (r.title = t ∧ r.source = s)

/-- `MongoDBService.article_exists` (mongodb_service.py 122–128). -/
def article_exists (db : List StoredArticle) (t s : List Char) : Bool :=
  db.any (keyMatches t s)

/-- The document written on insert by `save_article`: the fetched
content, `posted_at = utcnow()`, `is_posted` from the input dict. -/
def mkStored (a : Article) (is_posted : Bool) (now : Int) : StoredArticle :=
  { title := a.title
    link := a.link
    image_url := a.image_url
    description := a.description
    source := a.source
    posted_at := now
    is_posted := is_posted }

/-- `MongoDBService.save_article` (mongodb_service.py 42–72):
`update_one` with `$setOnInsert` and `upsert=True` keyed on
(title, source) — inserts the document if the key is absent and is a
no-op otherwise. -/
def save_article (db : List StoredArticle) (a : Article) (is_posted : Bool)
    (now : Int) : List StoredArticle :=
  if article_exists db a.title a.source then db
  else db ++ [mkStored a is_posted now]

/-- `MongoDBService.mark_article_posted` (mongodb_service.py 130–138):
`update_one` sets `is_posted = True` on the first document matching
(title, source). -/
def mark_article_posted : List StoredArticle → List Char → List Char →
    List StoredArticle
  | [], _, _ => []
  | r :: rest, t, s =>
    if keyMatches t s r then { r with is_posted := true } :: rest
    else r :: mark_article_posted rest t s

/-- Number of stored records with the given (title, source) key. -/
def countKey (db : List StoredArticle) (t s : List Char) : Nat :=
  db.countP (keyMatches t s)

/-! ## Ingestion pipeline (`app/tasks.py`) -/

/-- A `bot_status` record (`save_bot_status`, mongodb_service.py
152–165). -/
structure BotStatus where
  articles_posted : Nat
  status : String
  error_message : Option String
  deriving Repr, DecidableEq

/-- The dict returned by `fetch_and_post_cricket_news`. -/
structure TaskResult where
  status : String
  message : Option String
  articles_found : Option Nat
  new_articles : Option Nat
  articles_posted : Option Nat
  deriving Repr, DecidableEq

/-- The filter-new loop of `fetch_and_post_cricket_news` (tasks.py
42–49): for each fetched article in feed order, skip it if its key
already exists, else save it with `is_posted = False` and add it to
`new_articles`.  Returns the updated store and the new articles. -/
def ingestLoop (now : Int) : List Article → List StoredArticle →
    List StoredArticle × List Article
  | [], db => (db, [])
  | a :: rest, db =>
    if article_exists db a.title a.source then ingestLoop now rest db
    else
      let db' := save_article db a false now
      let r := ingestLoop now rest db'
      (r.1, a :: r.2)

/-- The mark-as-posted loop of `fetch_and_post_cricket_news` (tasks.py
69–70): `mark_article_posted` for every new article. -/
def markAll (new : List Article) (db : List StoredArticle) :
    List StoredArticle :=
  new.foldl (fun d a => mark_article_posted d a.title a.source) db

/-- Observable outcome of one pipeline run: returned result, final
`news_articles` store, appended `bot_status` records, delivery events. -/
structure RunOut where
  result : TaskResult
  db : List StoredArticle
  statuses : List BotStatus
  events : List PostEvent
  deriving Repr, DecidableEq

/-- `fetch_and_post_cricket_news` (tasks.py 9–110) as a pure function of
the run's environment: `botOk` is whether the Telegram `getMe` probe
succeeds, `articles` the fetched feed result, `sendOk` the per-index
delivery outcome, `now` the insertion timestamp, `db0`/`st0` the initial
`news_articles` and `bot_status` collections.  A zero posted count out
of a non-empty new set raises `Exception("Failed to post any
articles")`, caught by the boundary handler which records an error
status with `articles_posted = 0` and returns an error result; marking
as posted happens only after that check. -/
def fetch_and_post_cricket_news (botOk : Bool) (articles : List Article)
    (sendOk : Nat → Bool) (now : Int) (db0 : List StoredArticle)
    (st0 : List BotStatus) : RunOut :=
  if !botOk then
    { result := { status := "error"
                  message := some "Failed to connect to Telegram bot"
                  articles_found := none, new_articles := none
                  articles_posted := none }
      db := db0
      statuses := st0 ++
        [⟨0, "error", some "Failed to connect to Telegram bot"⟩]
      events := [] }
  else if articles.isEmpty then
    { result := { status := "success", message := some "No articles found"
                  articles_found := none, new_articles := none
                  articles_posted := none }
      db := db0
      statuses := st0 ++ [⟨0, "success", some "No articles found"⟩]
      events := [] }
  else
    let p := ingestLoop now articles db0
    if p.2.isEmpty then
      { result := { status := "success", message := some "No new articles"
                    articles_found := none, new_articles := none
                    articles_posted := none }
        db := p.1
        statuses := st0 ++ [⟨0, "success", some "No new articles"⟩]
        events := [] }
    else
      let post := post_articles sendOk p.2.length
      if post.1 = 0 then
        { result := { status := "error"
                      message := some "Failed to post any articles"
                      articles_found := none, new_articles := none
                      articles_posted := none }
          db := p.1
          statuses := st0 ++
            [⟨0, "error", some "Failed to post any articles"⟩]
          events := post.2 }
      else
        { result := { status := "success", message := none
                      articles_found := some articles.length
                      new_articles := some p.2.length
                      articles_posted := some post.1 }
          db := markAll p.2 p.1
          statuses := st0 ++ [⟨post.1, "success", none⟩]
          events := post.2 }

/-- C7: inserting twice under the same (title, source) key (content,
posted flag and timestamp of the second insert arbitrary) leaves the
store exactly as after the first insert, and the store then holds
exactly one record with that key, whose content is the first insert's
document — the second insert is a no-op, not an overwrite. -/
theorem insert_no_overwrite (db : List StoredArticle) (a a' : Article)
    (p p' : Bool) (t t' : Int)
    (hkt : a'.title = a.title) (hks : a'.source = a.source)
    (hfresh : article_exists db a.title a.source = false) :
    save_article (save_article db a p t) a' p' t' = save_article db a p t ∧
      (save_article db a p t).filter (keyMatches a.title a.source) =
        [mkStored a p t] := by
  have h1 : save_article db a p t = db ++ [mkStored a p t] := by
    simp [save_article, hfresh]
  constructor
  · have hex : article_exists (db ++ [mkStored a p t]) a'.title a'.source
        = true := by
      simp [article_exists, List.any_append, keyMatches, hkt, hks, mkStored]
    rw [h1, save_article, if_pos hex]
  · rw [h1, List.filter_append]
    have hnil : db.filter (keyMatches a.title a.source) = [] := by
      rw [List.filter_eq_nil_iff]
      intro r hr
      have hall := List.any_eq_false.mp hfresh r hr
      simpa using hall
    have hself : keyMatches a.title a.source (mkStored a p t) = true := by
      simp [keyMatches, mkStored]
    simp [hnil, hself]

/-- C7 witness: on an empty store, inserting the key ("t","s") with link
"l1" and then again with link "l2" leaves one record carrying "l1". -/
theorem insert_no_overwrite_witness :
    save_article
        (save_article [] ⟨"t".toList, "l1".toList, none, none, "s".toList⟩
          false 0)
        ⟨"t".toList, "l2".toList, none, none, "s".toList⟩ false 1 =
      save_article [] ⟨"t".toList, "l1".toList, none, none, "s".toList⟩
        false 0 ∧
    (save_article [] ⟨"t".toList, "l1".toList, none, none, "s".toList⟩
        false 0).filter (keyMatches "t".toList "s".toList) =
      [mkStored ⟨"t".toList, "l1".toList, none, none, "s".toList⟩ false 0] :=
  insert_no_overwrite [] ⟨"t".toList, "l1".toList, none, none, "s".toList⟩
    ⟨"t".toList, "l2".toList, none, none, "s".toList⟩ false false 0 1
    (by decide) (by decide) (by decide)

/-- C8: when the feed client returns an empty sequence, the run records
a success status with `articles_posted = 0` and message "No articles
found", returns a success result, leaves the article store untouched and
attempts no deliveries. -/
theorem empty_feed_success (sendOk : Nat → Bool) (now : Int)
    (db0 : List StoredArticle) (st0 : List BotStatus) :
    fetch_and_post_cricket_news true [] sendOk now db0 st0 =
      { result := { status := "success"
                    message := some "No articles found"
                    articles_found := none, new_articles := none
                    articles_posted := none }
        db := db0
        statuses := st0 ++ [⟨0, "success", some "No articles found"⟩]
        events := [] } := rfl

/-- C3: when the probe succeeds, the new-article set is non-empty and
the delivery step reports zero successes, the raised
`Exception("Failed to post any articles")` is caught at the pipeline
boundary: the recorded status is an error with `articles_posted = 0` and
that message, the returned result is an error with that message, and no
article is marked posted (the store stays as the ingest loop left it). -/
theorem zero_posted_error (articles : List Article) (sendOk : Nat → Bool)
    (now : Int) (db0 : List StoredArticle) (st0 : List BotStatus)
    (hnew : (ingestLoop now articles db0).2 ≠ [])
    (hzero :
      (post_articles sendOk (ingestLoop now articles db0).2.length).1 = 0) :
    fetch_and_post_cricket_news true articles sendOk now db0 st0 =
      { result := { status := "error"
                    message := some "Failed to post any articles"
                    articles_found := none, new_articles := none
                    articles_posted := none }
        db := (ingestLoop now articles db0).1
        statuses := st0 ++
          [⟨0, "error", some "Failed to post any articles"⟩]
        events :=
          (post_articles sendOk (ingestLoop now articles db0).2.length).2 } := by
  cases articles with
  | nil => simp [ingestLoop] at hnew
  | cons a rest =>
    have hne : ¬ ((ingestLoop now (a :: rest) db0).2.isEmpty = true) := by
      rw [List.isEmpty_iff]
      exact hnew
    simp only [fetch_and_post_cricket_news, Bool.not_true,
      Bool.false_eq_true, if_false, List.isEmpty_cons, ite_false]
    rw [if_neg hne, if_pos hzero]

/-- A concrete article for pipeline witnesses. -/
def exA : Article :=
  { title := "t".toList, link := "l".toList, image_url := none
    description := none, source := "s".toList }

/-- C3 witness: one fresh article and every delivery failing yields an
error result, the error status record and a store still unposted. -/
theorem zero_posted_error_witness :
    (fetch_and_post_cricket_news true [exA] (fun _ => false) 0 []
        []).result.status = "error" ∧
      (fetch_and_post_cricket_news true [exA] (fun _ => false) 0 []
          []).result.message = some "Failed to post any articles" ∧
      (fetch_and_post_cricket_news true [exA] (fun _ => false) 0 []
          []).statuses =
        [⟨0, "error", some "Failed to post any articles"⟩] := by
  rw [zero_posted_error [exA] (fun _ => false) 0 [] [] (by decide)
    (by decide)]
  exact ⟨rfl, rfl, rfl⟩

/-- The (title, source) key predicate on fetched articles. -/
def akey (t s : List Char) (b : Article) : Bool :=
  decide (b.title = t ∧ b.source = s)

theorem countKey_append (db₁ db₂ : List StoredArticle) (t s : List Char) :
    countKey (db₁ ++ db₂) t s = countKey db₁ t s + countKey db₂ t s :=
  List.countP_append _ _ _

theorem exists_false_iff_countKey (db : List StoredArticle)
    (t s : List Char) :
    article_exists db t s = false ↔ countKey db t s = 0 := by
  rw [article_exists, List.any_eq_false, countKey, List.countP_eq_zero]

theorem keyMatches_mkStored (a : Article) (p : Bool) (n : Int)
    (t s : List Char) :
    keyMatches t s (mkStored a p n) = akey t s a := rfl

/-- Invariants of the filter-new loop: (i) the key counts of the final
store are those of the initial store plus the key multiplicities of the
new-article list; (ii) every new article's key was absent from the
initial store; (iii) new-article keys are pairwise distinct (each
occurs exactly once in the list). -/
theorem ingest_inv (now : Int) (arts : List Article) :
    ∀ db : List StoredArticle,
      (∀ t s, countKey (ingestLoop now arts db).1 t s =
          countKey db t s +
            (ingestLoop now arts db).2.countP (akey t s)) ∧
      (∀ a ∈ (ingestLoop now arts db).2,
          countKey db a.title a.source = 0) ∧
      (∀ a ∈ (ingestLoop now arts db).2,
          (ingestLoop now arts db).2.countP (akey a.title a.source) = 1) := by
  induction arts with
  | nil => intro db; simp [ingestLoop]
  | cons a rest ih =>
    intro db
    by_cases hex : article_exists db a.title a.source = true
    · simp only [ingestLoop, hex, if_true]
      exact ih db
    · have hex' : article_exists db a.title a.source = false := by
        cases h : article_exists db a.title a.source
        · rfl
        · exact absurd h hex
      have hsave : save_article db a false now =
          db ++ [mkStored a false now] := by
        simp [save_article, hex']
      have hred : ingestLoop now (a :: rest) db =
          ((ingestLoop now rest (db ++ [mkStored a false now])).1,
            a :: (ingestLoop now rest (db ++ [mkStored a false now])).2) := by
        simp only [ingestLoop, hex', Bool.false_eq_true, if_false, hsave]
      obtain ⟨ih1, ih2, ih3⟩ := ih (db ++ [mkStored a false now])
      have hcnt1 : ∀ t s, countKey [mkStored a false now] t s =
          if akey t s a then 1 else 0 := by
        intro t s
        simp [countKey, List.countP_cons, keyMatches_mkStored]
      -- keys of later new articles differ from a's key
      have hdiff : ∀ c ∈ (ingestLoop now rest
          (db ++ [mkStored a false now])).2,
          ¬(a.title = c.title ∧ a.source = c.source) := by
        intro c hc hcon
        have h0 := ih2 c hc
        rw [countKey_append, hcnt1] at h0
        have : akey c.title c.source a = true := by
          simp [akey, hcon.1, hcon.2]
        rw [this, if_pos rfl] at h0
        omega
      refine ⟨?_, ?_, ?_⟩
      · intro t s
        rw [hred]
        show countKey (ingestLoop now rest (db ++ [mkStored a false now])).1
            t s = countKey db t s + List.countP (akey t s)
              (a :: (ingestLoop now rest (db ++ [mkStored a false now])).2)
        have h1 := ih1 t s
        rw [countKey_append, hcnt1] at h1
        rw [h1, List.countP_cons]
        by_cases hk : akey t s a = true
        · rw [if_pos hk]
          omega
        · rw [if_neg hk]
          omega
      · intro b hb
        rw [hred] at hb
        rcases List.mem_cons.mp hb with hba | hbm
        · subst hba
          exact (exists_false_iff_countKey db b.title b.source).mp hex'
        · have h0 := ih2 b hbm
          rw [countKey_append] at h0
          omega
      · intro b hb
        rw [hred] at hb
        rw [hred]
        rcases List.mem_cons.mp hb with hba | hbm
        · rw [hba]
          simp only [List.countP_cons]
          have hself : akey a.title a.source a = true := by simp [akey]
          have hzero : (ingestLoop now rest
              (db ++ [mkStored a false now])).2.countP
                (akey a.title a.source) = 0 := by
            rw [List.countP_eq_zero]
            intro c hc
            have := hdiff c hc
            simp only [akey, decide_eq_true_eq]
            intro hcon
            exact this ⟨hcon.1.symm, hcon.2.symm⟩
          rw [hzero, hself]
          simp
        · simp only [List.countP_cons]
          have hne : akey b.title b.source a = false := by
            have := hdiff b hbm
            simp only [akey, decide_eq_false_iff_not]
            intro hcon
            exact this ⟨hcon.1, hcon.2⟩
          rw [hne, ih3 b hbm]
          simp

theorem keyMatches_set_posted (t s : List Char) (r : StoredArticle) :
    keyMatches t s { r with is_posted := true } = keyMatches t s r := rfl

/-- Marking any key leaves every key count unchanged. -/
theorem countKey_mark (t' s' t s : List Char) :
    ∀ db : List StoredArticle,
      countKey (mark_article_posted db t' s') t s = countKey db t s := by
  intro db
  induction db with
  | nil => rfl
  | cons r rest ih =>
    simp only [mark_article_posted]
    by_cases h : keyMatches t' s' r = true
    · rw [if_pos h]
      simp only [countKey, List.countP_cons, keyMatches_set_posted]
    · rw [if_neg h]
      simp only [countKey, List.countP_cons] at ih ⊢
      rw [ih]

/-- Marking a key that occurs exactly once leaves every record matching
that key posted. -/
theorem mark_all_posted (t s : List Char) :
    ∀ db : List StoredArticle, countKey db t s = 1 →
      ∀ r ∈ mark_article_posted db t s,
        keyMatches t s r = true → r.is_posted = true := by
  intro db
  induction db with
  | nil => intro _ r hr; simp [mark_article_posted] at hr
  | cons q rest ih =>
    intro hcnt r hr hkr
    simp only [mark_article_posted] at hr
    by_cases hq : keyMatches t s q = true
    · rw [if_pos hq] at hr
      rcases List.mem_cons.mp hr with hru | hrm
      · rw [hru]
      · -- rest contains no further match
        have hz : countKey rest t s = 0 := by
          simp [countKey, List.countP_cons, hq] at hcnt
          simpa [countKey] using hcnt
        have := List.countP_eq_zero.mp hz r hrm
        exact absurd hkr this
    · rw [if_neg hq] at hr
      rcases List.mem_cons.mp hr with hru | hrm
      · rw [hru] at hkr
        exact absurd hkr hq
      · have hc : countKey rest t s = 1 := by
          simp only [countKey, List.countP_cons] at hcnt
          rw [if_neg hq] at hcnt
          simpa [countKey] using hcnt
        exact ih hc r hrm hkr

/-- Marking a key that occurs at least once produces a posted record
with that key. -/
theorem mark_produces_witness (t s : List Char) :
    ∀ db : List StoredArticle, 1 ≤ countKey db t s →
      ∃ r ∈ mark_article_posted db t s,
        keyMatches t s r = true ∧ r.is_posted = true := by
  intro db
  induction db with
  | nil => intro h; simp [countKey] at h
  | cons q rest ih =>
    intro hcnt
    simp only [mark_article_posted]
    by_cases hq : keyMatches t s q = true
    · rw [if_pos hq]
      exact ⟨{ q with is_posted := true }, List.mem_cons_self _ _,
        by rw [keyMatches_set_posted]; exact hq, rfl⟩
    · rw [if_neg hq]
      have hc : 1 ≤ countKey rest t s := by
        simp only [countKey, List.countP_cons] at hcnt
        rw [if_neg hq] at hcnt
        simpa [countKey] using hcnt
      obtain ⟨r, hrm, hr⟩ := ih hc
      exact ⟨r, List.mem_cons_of_mem _ hrm, hr⟩

/-- Marking never unsets the posted flag: an all-posted key stays
all-posted. -/
theorem mark_preserves_all_posted (t' s' t s : List Char) :
    ∀ db : List StoredArticle,
      (∀ r ∈ db, keyMatches t s r = true → r.is_posted = true) →
      ∀ r ∈ mark_article_posted db t' s',
        keyMatches t s r = true → r.is_posted = true := by
  intro db
  induction db with
  | nil => intro _ r hr; simp [mark_article_posted] at hr
  | cons q rest ih =>
    intro hall r hr hkr
    simp only [mark_article_posted] at hr
    by_cases hq : keyMatches t' s' q = true
    · rw [if_pos hq] at hr
      rcases List.mem_cons.mp hr with hru | hrm
      · rw [hru]
      · exact hall r (List.mem_cons_of_mem _ hrm) hkr
    · rw [if_neg hq] at hr
      rcases List.mem_cons.mp hr with hru | hrm
      · rw [hru] at hkr ⊢
        exact hall q (List.mem_cons_self _ _) hkr
      · exact ih (fun x hx => hall x (List.mem_cons_of_mem _ hx)) r hrm hkr

/-- Marking preserves the existence of a posted record at any key. -/
theorem mark_preserves_witness (t' s' t s : List Char) :
    ∀ db : List StoredArticle,
      (∃ r ∈ db, keyMatches t s r = true ∧ r.is_posted = true) →
      ∃ r ∈ mark_article_posted db t' s',
        keyMatches t s r = true ∧ r.is_posted = true := by
  intro db
  induction db with
  | nil => intro ⟨r, hr, _⟩; simp at hr
  | cons q rest ih =>
    intro ⟨r, hr, hkr, hpr⟩
    simp only [mark_article_posted]
    by_cases hq : keyMatches t' s' q = true
    · rw [if_pos hq]
      rcases List.mem_cons.mp hr with hru | hrm
      · refine ⟨{ q with is_posted := true }, List.mem_cons_self _ _, ?_, rfl⟩
        rw [keyMatches_set_posted, ← hru]
        exact hkr
      · exact ⟨r, List.mem_cons_of_mem _ hrm, hkr, hpr⟩
    · rw [if_neg hq]
      rcases List.mem_cons.mp hr with hru | hrm
      · exact ⟨q, List.mem_cons_self _ _, by rw [← hru]; exact hkr,
          by rw [← hru]; exact hpr⟩
      · obtain ⟨x, hxm, hx⟩ := ih ⟨r, hrm, hkr, hpr⟩
        exact ⟨x, List.mem_cons_of_mem _ hxm, hx⟩

theorem countKey_markAll (l : List Article) :
    ∀ (db : List StoredArticle) (t s : List Char),
      countKey (markAll l db) t s = countKey db t s := by
  induction l with
  | nil => intro db t s; rfl
  | cons b l ih =>
    intro db t s
    simp only [markAll, List.foldl_cons]
    rw [show (List.foldl (fun d a => mark_article_posted d a.title a.source)
        (mark_article_posted db b.title b.source) l) =
      markAll l (mark_article_posted db b.title b.source) from rfl]
    rw [ih, countKey_mark]

theorem markAll_preserves_all_posted (t s : List Char) (l : List Article) :
    ∀ db : List StoredArticle,
      (∀ r ∈ db, keyMatches t s r = true → r.is_posted = true) →
      ∀ r ∈ markAll l db, keyMatches t s r = true → r.is_posted = true := by
  induction l with
  | nil => intro db h; exact h
  | cons b l ih =>
    intro db h
    simp only [markAll, List.foldl_cons]
    exact ih _ (mark_preserves_all_posted b.title b.source t s db h)

theorem markAll_preserves_witness (t s : List Char) (l : List Article) :
    ∀ db : List StoredArticle,
      (∃ r ∈ db, keyMatches t s r = true ∧ r.is_posted = true) →
      ∃ r ∈ markAll l db, keyMatches t s r = true ∧ r.is_posted = true := by
  induction l with
  | nil => intro db h; exact h
  | cons b l ih =>
    intro db h
    simp only [markAll, List.foldl_cons]
    exact ih _ (mark_preserves_witness b.title b.source t s db h)

/-- Marking every article of `l`, each of whose keys occurs exactly once
in the store, leaves every record with one of those keys posted, and a
posted record with each such key present. -/
theorem markAll_marks (l : List Article) :
    ∀ db : List StoredArticle,
      (∀ a ∈ l, countKey db a.title a.source = 1) →
      ∀ a ∈ l,
        (∀ r ∈ markAll l db,
          keyMatches a.title a.source r = true → r.is_posted = true) ∧
        (∃ r ∈ markAll l db,
          keyMatches a.title a.source r = true ∧ r.is_posted = true) := by
  induction l with
  | nil => intro db _ a ha; simp at ha
  | cons b l ih =>
    intro db hcount a ha
    have hstep : markAll (b :: l) db =
        markAll l (mark_article_posted db b.title b.source) := by
      simp only [markAll, List.foldl_cons]
    rcases List.mem_cons.mp ha with hab | ham
    · rw [hab, hstep]
      have hb1 := hcount b (List.mem_cons_self _ _)
      constructor
      · exact markAll_preserves_all_posted b.title b.source l _
          (mark_all_posted b.title b.source db hb1)
      · exact markAll_preserves_witness b.title b.source l _
          (mark_produces_witness b.title b.source db (by omega))
    · rw [hstep]
      have hcount' : ∀ x ∈ l,
          countKey (mark_article_posted db b.title b.source)
            x.title x.source = 1 := by
        intro x hx
        rw [countKey_mark]
        exact hcount x (List.mem_cons_of_mem _ hx)
      exact ih _ hcount' a ham

/-- The success branch of the pipeline: with a reachable bot, a
non-empty new-article set and a non-zero posted count, the run marks all
new articles posted, appends a success status and returns the counts. -/
theorem run_success_eq (articles : List Article) (sendOk : Nat → Bool)
    (now : Int) (db0 : List StoredArticle) (st0 : List BotStatus)
    (hnew : (ingestLoop now articles db0).2 ≠ [])
    (hpos :
      (post_articles sendOk (ingestLoop now articles db0).2.length).1 ≠ 0) :
    fetch_and_post_cricket_news true articles sendOk now db0 st0 =
      { result := { status := "success", message := none
                    articles_found := some articles.length
                    new_articles :=
                      some (ingestLoop now articles db0).2.length
                    articles_posted := some (post_articles sendOk
                      (ingestLoop now articles db0).2.length).1 }
        db := markAll (ingestLoop now articles db0).2
          (ingestLoop now articles db0).1
        statuses := st0 ++
          [⟨(post_articles sendOk
              (ingestLoop now articles db0).2.length).1, "success", none⟩]
        events :=
          (post_articles sendOk (ingestLoop now articles db0).2.length).2 }
    := by
  cases articles with
  | nil => simp [ingestLoop] at hnew
  | cons a rest =>
    have hne : ¬ ((ingestLoop now (a :: rest) db0).2.isEmpty = true) := by
      rw [List.isEmpty_iff]
      exact hnew
    simp only [fetch_and_post_cricket_news, Bool.not_true,
      Bool.false_eq_true, if_false, List.isEmpty_cons, ite_false]
    rw [if_neg hne, if_neg hpos]

/-- C4: whenever a run reaches the mark-posted step (non-zero posted
count), every new article of that run — including any whose individual
delivery failed, since the conclusion holds for every delivery oracle
with a non-zero total — ends up with its (title, source) records marked
posted in the final store, and such a posted record exists. -/
theorem mark_posted_regardless (articles : List Article)
    (sendOk : Nat → Bool) (now : Int) (db0 : List StoredArticle)
    (st0 : List BotStatus)
    (hpos :
      (post_articles sendOk (ingestLoop now articles db0).2.length).1 ≠ 0) :
    ∀ a ∈ (ingestLoop now articles db0).2,
      (∀ r ∈ (fetch_and_post_cricket_news true articles sendOk now db0
          st0).db,
        keyMatches a.title a.source r = true → r.is_posted = true) ∧
      (∃ r ∈ (fetch_and_post_cricket_news true articles sendOk now db0
          st0).db,
        keyMatches a.title a.source r = true ∧ r.is_posted = true) := by
  intro a ha
  have hnew : (ingestLoop now articles db0).2 ≠ [] :=
    List.ne_nil_of_mem ha
  rw [run_success_eq articles sendOk now db0 st0 hnew hpos]
  obtain ⟨i1, i2, i3⟩ := ingest_inv now articles db0
  have hcount : ∀ x ∈ (ingestLoop now articles db0).2,
      countKey (ingestLoop now articles db0).1 x.title x.source = 1 := by
    intro x hx
    rw [i1 x.title x.source, i2 x hx, i3 x hx]
  exact markAll_marks _ _ hcount a ha

/-- A second concrete article, delivered at index 1. -/
def exA2 : Article :=
  { title := "t2".toList, link := "l2".toList, image_url := none
    description := none, source := "s".toList }

/-- C4 witness: two fresh articles, delivery succeeding only at index 0,
still leaves the article at index 1 — whose delivery failed — marked
posted in the final store. -/
theorem mark_posted_regardless_witness :
    ∃ r ∈ (fetch_and_post_cricket_news true [exA, exA2]
        (fun i => i == 0) 0 [] []).db,
      keyMatches exA2.title exA2.source r = true ∧ r.is_posted = true :=
  (mark_posted_regardless [exA, exA2] (fun i => i == 0) 0 [] []
    (by decide) exA2 (by decide)).2

/-! ## Feed client (`app/services/news_fetcher.py`) -/

/-- An RSS feed entry: title, link, optional `summary` attribute. -/
structure Entry where
  title : List Char
  link : List Char
  summary : Option (List Char)
  deriving Repr, DecidableEq

/-- The description fallback (news_fetcher.py 119–121): keep the
extracted description if truthy, else use the entry's `summary`
attribute when it exists. -/
def chooseDescription (extracted summary : Option (List Char)) :
    Option (List Char) :=
  if truthy extracted then extracted
  else
    match summary with
    | some s => some s
    | none => extracted

/-- The article dict appended per entry (news_fetcher.py 123–129);
`enrich` abstracts `extract_article_content` (always total: it returns
`(None, None)` on any internal failure). -/
def mkFetched (enrich : Entry → Option (List Char) × Option (List Char))
    (e : Entry) : Article :=
  { title := e.title
    link := e.link
    image_url := (enrich e).1
    description := chooseDescription (enrich e).2 e.summary
    source := "ESPN".toList }

/-- The per-entry loop of `fetch_cricket_news` (news_fetcher.py
114–137): `acc` is the number of articles collected so far; a per-item
fault (`itemOk e = false`) is logged and skipped via `continue`; after
appending, the loop breaks once 5 articles are collected. -/
def fetchLoop (enrich : Entry → Option (List Char) × Option (List Char))
    (itemOk : Entry → Bool) : List Entry → Nat → List Article
  | [], _ => []
  | e :: rest, acc =>
    if itemOk e then
      if acc + 1 ≥ 5 then [mkFetched enrich e]
      else mkFetched enrich e :: fetchLoop enrich itemOk rest (acc + 1)
    else fetchLoop enrich itemOk rest acc

/-- `NewsFetcher.fetch_cricket_news` (news_fetcher.py 99–144): a failed
or malformed feed fetch (`feedOk = false`, the outer except) and an
empty feed both yield `[]`; otherwise the loop runs over the first
`min(10, len(entries))` entries. -/
def fetch_cricket_news (feedOk : Bool) (entries : List Entry)
    (enrich : Entry → Option (List Char) × Option (List Char))
    (itemOk : Entry → Bool) : List Article :=
  if !feedOk then []
  else if entries.isEmpty then []
  else fetchLoop enrich itemOk (entries.take (min 10 entries.length)) 0

theorem fetchLoop_spec (enrich : Entry → Option (List Char) ×
      Option (List Char)) (itemOk : Entry → Bool) :
    ∀ (l : List Entry) (acc : Nat), acc < 5 →
      ∃ sel : List Entry, List.Sublist sel l ∧
        fetchLoop enrich itemOk l acc = sel.map (mkFetched enrich) ∧
        (fetchLoop enrich itemOk l acc).length + acc ≤ 5 := by
  intro l
  induction l with
  | nil =>
    intro acc hacc
    exact ⟨[], List.Sublist.refl _, rfl, by simp [fetchLoop]; omega⟩
  | cons e rest ih =>
    intro acc hacc
    by_cases hok : itemOk e = true
    · by_cases hfull : acc + 1 ≥ 5
      · refine ⟨[e], ?_, ?_, ?_⟩
        · exact List.Sublist.cons₂ e (List.nil_sublist rest)
        · simp [fetchLoop, hok, hfull]
        · simp [fetchLoop, hok, hfull]
          omega
      · obtain ⟨sel, hsub, heq, hlen⟩ := ih (acc + 1) (by omega)
        refine ⟨e :: sel, List.Sublist.cons₂ e hsub, ?_, ?_⟩
        · simp [fetchLoop, hok, hfull, heq]
        · simp only [fetchLoop, hok, if_true, if_neg hfull,
            List.length_cons]
          omega
    · obtain ⟨sel, hsub, heq, hlen⟩ := ih acc hacc
      exact ⟨sel, List.Sublist.cons _ hsub,
        by simp [fetchLoop, hok, heq], by simpa [fetchLoop, hok] using hlen⟩

/-- C9: the fetcher considers at most the first 10 feed entries (the
returned list is the image of a selection — in feed order — of the
first 10 entries), returns at most 5 items, and an empty or malformed
feed yields the empty sequence rather than an error. -/
theorem fetch_bounded (feedOk : Bool) (entries : List Entry)
    (enrich : Entry → Option (List Char) × Option (List Char))
    (itemOk : Entry → Bool) :
    (fetch_cricket_news feedOk entries enrich itemOk).length ≤ 5 ∧
      (∃ sel : List Entry, List.Sublist sel (entries.take 10) ∧
        fetch_cricket_news feedOk entries enrich itemOk =
          sel.map (mkFetched enrich)) ∧
      fetch_cricket_news false entries enrich itemOk = [] ∧
      fetch_cricket_news feedOk [] enrich itemOk = [] := by
  have htake : entries.take (min 10 entries.length) = entries.take 10 := by
    rcases Nat.le_total entries.length 10 with hle | hge
    · rw [Nat.min_eq_right hle, List.take_length,
        List.take_of_length_le hle]
    · rw [Nat.min_eq_left hge]
  have hmain : ∀ hfeed : Bool,
      (fetch_cricket_news hfeed entries enrich itemOk).length ≤ 5 ∧
      (∃ sel : List Entry, List.Sublist sel (entries.take 10) ∧
        fetch_cricket_news hfeed entries enrich itemOk =
          sel.map (mkFetched enrich)) := by
    intro hfeed
    cases hfeed with
    | false =>
      exact ⟨by simp [fetch_cricket_news],
        ⟨[], List.nil_sublist _, by simp [fetch_cricket_news]⟩⟩
    | true =>
      by_cases hemp : entries.isEmpty = true
      · exact ⟨by simp [fetch_cricket_news, hemp],
          ⟨[], List.nil_sublist _, by simp [fetch_cricket_news, hemp]⟩⟩
      · obtain ⟨sel, hsub, heq, hlen⟩ := fetchLoop_spec enrich itemOk
          (entries.take (min 10 entries.length)) 0 (by omega)
        rw [htake] at hsub
        refine ⟨?_, ⟨sel, hsub, ?_⟩⟩
        · simp only [fetch_cricket_news, Bool.not_true, Bool.false_eq_true,
            if_false, ite_false]
          rw [if_neg hemp]
          omega
        · simp only [fetch_cricket_news, Bool.not_true, Bool.false_eq_true,
            if_false, ite_false]
          rw [if_neg hemp]
          exact heq
  refine ⟨(hmain feedOk).1, (hmain feedOk).2, (hmain false).2.elim ?_,
    ?_⟩
  · intro sel hsel
    cases feedOk <;> simp [fetch_cricket_news]
  · cases feedOk <;> simp [fetch_cricket_news]

end NewsUploader
